import Mathlib

/-!
Verification development for the shared-element transition engine of the
hachi-player repository (`src/Contexts.tsx`, shared-element section).

The engine is embedded shallowly: the registry (`Map<string, GroupState>`)
becomes an insertion-ordered association list, the synchronous scan
`performTransitionGroups` and the wave-resolution loop in `performTransition`
become pure functions, and the event-loop-driven parts (promise settlement,
deferred transitions) become a small-step machine over an explicit engine
state.  DOM-only effects (class lists, computed font styles, the clone's
subtree) are not observable by any claim and are represented only insofar as
the engine's control flow depends on them; element handles are opaque `Nat`
ids and measured bounding rectangles are carried as data.
-/

namespace HachiPlayer

/-- A measured bounding rectangle (`DOMRect` as consumed by the engine). -/
structure Rect where
  x : Int
  y : Int
  width : Int
  height : Int
deriving DecidableEq, Repr

/-- The options record `AnimationSettings` from `Contexts.tsx`: `KeyframeEffectOptions` plus the
`enable` switch.  Only the options the engine itself reads or sets are kept;
an absent (`none`) field is a JS `undefined`. -/
structure AnimationSettings where
  enable : Option Bool := none
  initialOpacity : Option String := none
  duration : Option Nat := none
  easing : Option String := none
  fill : Option String := none
deriving DecidableEq, Repr

/-- Embedding of `mergeProps(base, override)`: a property defined on the override wins,
otherwise the base's value is used. -/
def mergeSettings (base override : AnimationSettings) : AnimationSettings where
  enable := override.enable.orElse fun _ => base.enable
  initialOpacity := override.initialOpacity.orElse fun _ => base.initialOpacity
  duration := override.duration.orElse fun _ => base.duration
  easing := override.easing.orElse fun _ => base.easing
  fill := override.fill.orElse fun _ => base.fill

/-- Constant `Easings.MdCrossAxis` from `Util.ts`. -/
def MdCrossAxis : String := "cubic-bezier(0.4, 0, 0.2, 1)"

/-- Constant `Easings.MotionDefault()` from `Util.ts`. -/
def MotionDefault : String := MdCrossAxis

/-- Constant `Easings.OpacityDefault()` from `Util.ts`. -/
def OpacityDefault : String := "ease-out"

/-- The record `ElementState`: one shared element's state at a point in time.  `el` is
the opaque handle of the underlying DOM element and `rect` is its measured
bounding rectangle (the geometry adapter's answer for `el`).  The optional
lifecycle callbacks carry no engine-visible state and are omitted. -/
structure ElementState where
  el : Nat
  rect : Rect
  fadeOutAnimation : AnimationSettings
  fadeInAnimation : AnimationSettings
  dependencies : List String
deriving DecidableEq, Repr

/-- The record `GroupState`: the live elements registered under one name, plus the old
snapshot captured during a transition.  `elements` holds the current value of
each accessor. -/
structure GroupState where
  elOld : Option ElementState := none
  rectOld : Option Rect := none
  elements : List ElementState
deriving DecidableEq, Repr

/-- The registry `globalState.groups`: a JS `Map` iterated in insertion
order, embedded as an insertion-ordered association list. -/
abbrev Registry := List (String × GroupState)

/-- The map `globalState.transformProperties`. -/
abbrev TransformMap := List (String × AnimationSettings)

/-- Embedding of `Map.get`. -/
def mapGet {α : Type} : List (String × α) → String → Option α
  | [], _ => none
  | (k, v) :: rest, key => if k = key then some v else mapGet rest key

/-- Embedding of `Map.set`: replaces the value in place when the key exists (keeping the
iteration position), appends otherwise. -/
def mapSet {α : Type} : List (String × α) → String → α → List (String × α)
  | [], key, v => [(key, v)]
  | (k, v') :: rest, key, v =>
      if k = key then (key, v) :: rest else (k, v') :: mapSet rest key v

/-- Embedding of `Map.delete`. -/
def mapDelete {α : Type} : List (String × α) → String → List (String × α)
  | [], _ => []
  | (k, v) :: rest, key =>
      if k = key then rest else (k, v) :: mapDelete rest key

/-- Removes the first occurrence of `a` (the `findIndex`-then-`splice`
pattern, and the single-slot removal used for consumed continuations). -/
def removeFirst {α : Type} [DecidableEq α] (a : α) : List α → List α
  | [] => []
  | b :: rest => if b = a then rest else b :: removeFirst a rest

/-- Embedding of `mountAction` from `SharedElement`: push the element's state accessor
onto the named group's list, creating the group if absent. -/
def mountAction (name : String) (st : ElementState) (groups : Registry) : Registry :=
  match mapGet groups name with
  | some g => mapSet groups name { g with elements := g.elements ++ [st] }
  | none => mapSet groups name { elOld := none, rectOld := none, elements := [st] }

/-- Removes the first live entry whose element handle matches (the
`findIndex(val => val().el === child())` / `splice` pair in `cleanupAction`). -/
def removeFirstEl (el : Nat) : List ElementState → List ElementState
  | [] => []
  | st :: rest => if st.el = el then rest else st :: removeFirstEl el rest

/-- Embedding of `cleanupAction` from `SharedElement`: remove the first matching live
entry, then delete the whole entry when the group is empty and no transition
is in progress (`if (!(globalState.isTransitioning || group.elements.length))`). -/
def cleanupAction (isTransitioning : Bool) (name : String) (el : Nat)
    (groups : Registry) : Registry :=
  match mapGet groups name with
  | none => groups
  | some g =>
      let elements := removeFirstEl el g.elements
      if !isTransitioning && elements.isEmpty then mapDelete groups name
      else mapSet groups name { g with elements := elements }

/-- A registry mutation performed by host components: `SharedElement`
mounting or unmounting under a name.  The mutation callback handed to
`startTransitionSE` is a list of these (its contract is exactly to change
group membership synchronously). -/
inductive RegOp
  | register (name : String) (st : ElementState)
  | unregister (name : String) (el : Nat)
deriving DecidableEq, Repr

def applyRegOp (isTransitioning : Bool) (groups : Registry) : RegOp → Registry
  | .register name st => mountAction name st groups
  | .unregister name el => cleanupAction isTransitioning name el groups

def applyRegOps (isTransitioning : Bool) (ops : List RegOp) (groups : Registry) : Registry :=
  ops.foldl (applyRegOp isTransitioning) groups

/-- The per-group half of `saveElementsAndBoundingRects`: when a group has
exactly one live element, store a detached clone of it as the old snapshot
(the clone keeps the state's settings, callbacks and dependencies) together
with the live element's measured bounding rectangle. -/
def saveGroup (g : GroupState) : GroupState :=
  match g.elements with
  | [st] => { g with elOld := some st, rectOld := some st.rect }
  | _ => g

/-- Embedding of `saveElementsAndBoundingRects`. -/
def saveElementsAndBoundingRects (groups : Registry) : Registry :=
  groups.map fun p => (p.1, saveGroup p.2)

/-- Embedding of `clearSavedElementsAndBoundingRects`. -/
def clearSavedElementsAndBoundingRects (groups : Registry) : Registry :=
  groups.map fun p => (p.1, { p.2 with elOld := none, rectOld := none })

/-- The type `JSX.FunctionMaybe<AnimationSettings>`: either a plain settings value or
a thunk producing one. -/
inductive FunctionMaybe (α : Type)
  | val (a : α)
  | fn (f : Unit → α)

/-- The resolution step `typeof props == "function" ? props() : props`. -/
def resolveFunctionMaybe {α : Type} : FunctionMaybe α → α
  | .val a => a
  | .fn f => f ()

/-- Embedding of `setTransformProperty`: resolves a function-valued argument at set time
and stores the result under the group name. -/
def setTransformProperty (groupName : String) (props : FunctionMaybe AnimationSettings)
    (m : TransformMap) : TransformMap :=
  mapSet m groupName (resolveFunctionMaybe props)

/-- Embedding of `getTransformProperty`. -/
def getTransformProperty (groupName : String) (m : TransformMap) : Option AnimationSettings :=
  mapGet m groupName

/-- The engine's `console.error` reports. -/
inductive TransitionError
  | multipleElements (name : String) (count : Nat)
  | previousNotFinished
  | depthExceeded (max : Nat)
deriving DecidableEq, Repr

/-- Which branch of `performTransitionGroups` produced an animation record:
`paired` is the one-live-element branch (two-sided when an old snapshot
exists, appearance-only otherwise); `outOnly` is the zero-element branch
driven purely by the old snapshot. -/
inductive AnimBranch
  | paired
  | outOnly
deriving DecidableEq, Repr

/-- The engine-observable outcome of animating one group: which animations
were started (with their merged settings) and the static inline opacities
left on the clones.  `newInlineOpacity = some ""` models clearing the inline
declaration (`style.opacity = ""`), deferring to the stylesheet. -/
structure GroupAnim where
  name : String
  branch : AnimBranch
  hasOld : Bool
  transformAnim : Option AnimationSettings
  fadeInAnim : Option AnimationSettings
  fadeOutAnim : Option AnimationSettings
  newInlineOpacity : Option String
  oldInlineOpacity : Option String
deriving DecidableEq, Repr

/-- The check `getTransformProperty(name)?.enable ?? true`. -/
def enableTransformFor (tp : TransformMap) (name : String) : Bool :=
  ((mapGet tp name).bind AnimationSettings.enable).getD true

/-- The one-live-element branch of `performTransitionGroups` (after the
dependency check has passed): build the overlay for `stNew` (and the old
snapshot, when present) and start up to three animations.
The new clone's inline opacity is first set to `"0"`; when its fade-in is
enabled the fade animation runs with merged defaults
(duration 150, `OpacityDefault`, fill both), otherwise the clone is
statically set to `fadeInAnimation.initialOpacity ?? ""`.
The old clone (when present) starts at
`fadeOutAnimation.initialOpacity ?? "1"` and fades out when enabled.
The wrapper motion animation runs only when an old side exists and the
per-group transform override does not disable it, with merged defaults
(duration 560, `MotionDefault`, fill both). -/
def buildPairedAnim (tp : TransformMap) (name : String) (group : GroupState)
    (stNew : ElementState) : GroupAnim where
  name := name
  branch := .paired
  hasOld := group.elOld.isSome
  transformAnim :=
    if enableTransformFor tp name && group.elOld.isSome then
      some (mergeSettings
        { duration := some 560, easing := some MotionDefault, fill := some "both" }
        ((mapGet tp name).getD {}))
    else none
  fadeInAnim :=
    if stNew.fadeInAnimation.enable.getD true then
      some (mergeSettings
        { duration := some 150, easing := some OpacityDefault, fill := some "both" }
        stNew.fadeInAnimation)
    else none
  fadeOutAnim :=
    match group.elOld with
    | some stOld =>
        if stOld.fadeOutAnimation.enable.getD true then
          some (mergeSettings
            { duration := some 150, easing := some OpacityDefault, fill := some "both" }
            stOld.fadeOutAnimation)
        else none
    | none => none
  newInlineOpacity :=
    some (if stNew.fadeInAnimation.enable.getD true then "0"
          else stNew.fadeInAnimation.initialOpacity.getD "")
  oldInlineOpacity :=
    group.elOld.map fun stOld => stOld.fadeOutAnimation.initialOpacity.getD "1"

/-- The zero-element branch of `performTransitionGroups` (after the
dependency check on the old snapshot has passed): a disappearance-only
overlay holding just the old clone, fading it out when enabled (merged
defaults: duration 150, `OpacityDefault`, fill forwards). -/
def buildOutAnim (name : String) (stOld : ElementState) : GroupAnim where
  name := name
  branch := .outOnly
  hasOld := true
  transformAnim := none
  fadeInAnim := none
  fadeOutAnim :=
    if stOld.fadeOutAnimation.enable.getD true then
      some (mergeSettings
        { duration := some 150, easing := some OpacityDefault, fill := some "forwards" }
        stOld.fadeOutAnimation)
    else none
  newInlineOpacity := none
  oldInlineOpacity := some "1"

/-- The mutable scan state threaded through the wave loop: `groupsReady`,
`animationPromiseList` (as animation records), the `console.error` calls made
so far, and the scan's `allReady` flag. -/
structure ScanState where
  ready : List String
  anims : List GroupAnim
  errors : List TransitionError
  allReady : Bool
deriving DecidableEq, Repr

/-- Result of a (possibly partial) scan: `crash` models the `TypeError`
thrown when the zero-element branch dereferences an absent old snapshot
(`group.elOld!.dependencies` with `elOld` undefined); the carried state holds
the effects performed before the throw. -/
inductive ScanOut
  | ok (st : ScanState)
  | crash (st : ScanState)
deriving DecidableEq, Repr

def ScanOut.state : ScanOut → ScanState
  | .ok st => st
  | .crash st => st

/-- One iteration of the `for (const [name, group] of globalState.groups)`
body in `performTransitionGroups`. -/
def scanGroup (tp : TransformMap) (st : ScanState) (name : String)
    (group : GroupState) : ScanOut :=
  if st.ready.contains name then .ok st
  else
    match group.elements with
    | _ :: _ :: rest =>
        .ok { st with
          errors := st.errors ++ [.multipleElements name (rest.length + 2)],
          ready := st.ready ++ [name] }
    | [stNew] =>
        if stNew.dependencies.all st.ready.contains then
          .ok { st with
            anims := st.anims ++ [buildPairedAnim tp name group stNew],
            ready := st.ready ++ [name] }
        else .ok { st with allReady := false }
    | [] =>
        match group.elOld with
        | none => .crash st
        | some stOld =>
            if stOld.dependencies.all st.ready.contains then
              .ok { st with
                anims := st.anims ++ [buildOutAnim name stOld],
                ready := st.ready ++ [name] }
            else .ok { st with allReady := false }

def scanGroups (tp : TransformMap) (st : ScanState) :
    List (String × GroupState) → ScanOut
  | [] => .ok st
  | (name, group) :: rest =>
      match scanGroup tp st name group with
      | .ok st' => scanGroups tp st' rest
      | .crash st' => .crash st'

/-- Embedding of `performTransitionGroups`: one full pass over the registry; `allReady`
starts true and is cleared by every group still blocked on a dependency. -/
def performTransitionGroups (tp : TransformMap) (groups : Registry)
    (st : ScanState) : ScanOut :=
  scanGroups tp { st with allReady := true } groups

/-- Outcome of the wave-resolution `while` loop in `performTransition`.
`waves` records the names newly resolved by each pass, `passes` the number of
scans performed, `aborted` whether the depth guard broke the loop, and
`crashed` whether a scan threw. -/
structure LoopResult where
  final : ScanState
  waves : List (List String)
  passes : Nat
  aborted : Bool
  crashed : Bool
deriving DecidableEq, Repr

/-- The `while (!allReady)` loop with its depth counter: the counter starts
at 1 and the guard `dependencyDepth > maxDependencyDepth` breaks the loop, so
the remaining pass budget (`gas`) starts at the configured maximum. -/
def waveLoop (tp : TransformMap) (groups : Registry) :
    Nat → ScanState → List (List String) → Nat → LoopResult
  | 0, st, waves, passes => ⟨st, waves, passes, true, false⟩
  | gas + 1, st, waves, passes =>
      match performTransitionGroups tp groups st with
      | .crash st' => ⟨st', waves, passes + 1, false, true⟩
      | .ok st' =>
          let wave := st'.ready.drop st.ready.length
          if st'.allReady then ⟨st', waves ++ [wave], passes + 1, false, false⟩
          else waveLoop tp groups gas st' (waves ++ [wave]) (passes + 1)

def initialScanState : ScanState := ⟨[], [], [], false⟩

/-- The synchronous core of one transition: everything `performTransition`
does to the registry and error log between setting the in-flight flag and
returning.  On a scan crash the thrown `TypeError` propagates, so the saved
snapshots are never cleared and no completion is registered. -/
structure TransitionRun where
  groupsFinal : Registry
  ready : List String
  anims : List GroupAnim
  waves : List (List String)
  errors : List TransitionError
  aborted : Bool
  crashed : Bool
deriving DecidableEq, Repr

def runTransitionPure (tp : TransformMap) (silent : Bool) (maxD : Nat)
    (groups0 : Registry) (ops : List RegOp) : TransitionRun :=
  let saved := saveElementsAndBoundingRects groups0
  let mutated := applyRegOps true ops saved
  let r := waveLoop tp mutated maxD initialScanState [] 0
  if r.crashed then
    ⟨mutated, r.final.ready, r.final.anims, r.waves, r.final.errors, r.aborted, true⟩
  else
    ⟨clearSavedElementsAndBoundingRects mutated, r.final.ready, r.final.anims, r.waves,
      r.final.errors ++ (if r.aborted && !silent then [.depthExceeded maxD] else []),
      r.aborted, false⟩

/-- The process-wide engine state (`globalState` plus the promise plumbing
made explicit).  Futures and animation-settlement promises get consecutive
`Nat` ids: `currentFuture` is `previousTransitionFinished`, `settled` the ids
that have resolved (the initial `Promise.resolve()` has id 0),
`pendingCompletion` the `Promise.all(animationPromiseList).finally` handler
registered by the running transition (the future it will settle and the
per-group animation ids it waits on), `settledAnims` the animation promises
that have settled, and `deferred` the continuations attached by
`previousTransitionFinished.finally(() => performTransition(callback))`.
`mutationRuns` logs every invocation of a mutation callback, and `crashed`
records an escaped `TypeError`. -/
structure EngineState where
  groups : Registry
  transformProperties : TransformMap
  isTransitioning : Bool
  allowDefer : Bool
  silentlyFail : Bool
  maxDependencyDepth : Nat
  currentFuture : Nat
  nextFuture : Nat
  settled : List Nat
  settledAnims : List Nat
  animCounter : Nat
  pendingCompletion : Option (Nat × List Nat)
  deferred : List (Nat × List RegOp)
  errors : List TransitionError
  mutationRuns : List (List RegOp)
  crashed : Bool
deriving DecidableEq, Repr

/-- Embedding of `performTransition(callback)`: set the in-flight flag, replace the
completion future with a fresh one, snapshot, run the callback, run the wave
loop, register the completion handler over one animation promise per animated
group, and clear the snapshots.  When a scan throws, the exception escapes
before `Promise.all` is registered and before the snapshots are cleared. -/
def performTransition (cb : List RegOp) (s : EngineState) : EngineState :=
  let fid := s.nextFuture
  let r := runTransitionPure s.transformProperties s.silentlyFail
    s.maxDependencyDepth s.groups cb
  if r.crashed then
    { s with isTransitioning := true, currentFuture := fid, nextFuture := fid + 1,
             groups := r.groupsFinal, errors := s.errors ++ r.errors,
             mutationRuns := s.mutationRuns ++ [cb], crashed := true }
  else
    { s with isTransitioning := true, currentFuture := fid, nextFuture := fid + 1,
             groups := r.groupsFinal, errors := s.errors ++ r.errors,
             mutationRuns := s.mutationRuns ++ [cb],
             pendingCompletion := some (fid, List.range' s.animCounter r.anims.length),
             animCounter := s.animCounter + r.anims.length }

/-- Embedding of `startTransitionSE(callback, allowDefer?)`: run immediately when no
transition is in flight; otherwise either attach a deferred continuation to
the current completion future or drop the request with a policy error
(logged unless silent-failure mode is set). -/
def startTransitionSE (cb : List RegOp) (allowDeferArg : Option Bool)
    (s : EngineState) : EngineState :=
  let allowDefer := allowDeferArg.getD s.allowDefer
  if s.isTransitioning then
    if allowDefer then
      { s with deferred := s.deferred ++ [(s.currentFuture, cb)] }
    else if !s.silentlyFail then
      { s with errors := s.errors ++ [.previousNotFinished] }
    else s
  else performTransition cb s

/-- One turn of the event loop as the engine observes it. -/
inductive Event
  | reg (op : RegOp)
  | start (cb : List RegOp) (allowDeferArg : Option Bool)
  | settleAnim (i : Nat)
  | finishTransition
  | runDeferred (fid : Nat) (cb : List RegOp)
deriving Repr

/-- The step function: `reg` is a host component mounting or unmounting,
`start` is a call to `startTransitionSE`, `settleAnim i` is one group's
collected animation promise settling, `finishTransition` is the
`Promise.all(...).finally` handler firing (which the runtime does exactly
when every awaited animation promise has settled), and `runDeferred` is an
attached deferral continuation firing (which the runtime does only once its
future has settled).  After an escaped `TypeError` the machine is frozen. -/
def step (s : EngineState) : Event → EngineState
  | .reg op =>
      if s.crashed then s
      else { s with groups := applyRegOp s.isTransitioning s.groups op }
  | .start cb allowDeferArg =>
      if s.crashed then s else startTransitionSE cb allowDeferArg s
  | .settleAnim i =>
      if s.crashed then s
      else if i < s.animCounter ∧ i ∉ s.settledAnims then
        { s with settledAnims := s.settledAnims ++ [i] }
      else s
  | .finishTransition =>
      if s.crashed then s
      else
        match s.pendingCompletion with
        | some (fid, ids) =>
            if ∀ i ∈ ids, i ∈ s.settledAnims then
              { s with isTransitioning := false, settled := s.settled ++ [fid],
                       pendingCompletion := none }
            else s
        | none => s
  | .runDeferred fid cb =>
      if s.crashed then s
      else if (fid, cb) ∈ s.deferred ∧ fid ∈ s.settled then
        performTransition cb { s with deferred := removeFirst (fid, cb) s.deferred }
      else s

/-- The literal initializer of `globalState`: empty registry, no overrides,
not transitioning, deferral off, silent failure off, maximum dependency
depth 100, and `previousTransitionFinished = Promise.resolve()` (future 0,
already settled). -/
def initialEngineState : EngineState where
  groups := []
  transformProperties := []
  isTransitioning := false
  allowDefer := false
  silentlyFail := false
  maxDependencyDepth := 100
  currentFuture := 0
  nextFuture := 1
  settled := [0]
  settledAnims := []
  animCounter := 0
  pendingCompletion := none
  deferred := []
  errors := []
  mutationRuns := []
  crashed := false

def runEvents (events : List Event) : EngineState :=
  events.foldl step initialEngineState

/-- The reachable engine states: the initial state and everything the step
function produces from them. -/
inductive Reachable : EngineState → Prop
  | init : Reachable initialEngineState
  | next (s : EngineState) (e : Event) : Reachable s → Reachable (step s e)

/-- The dependency list the scan consults for a group: the new element's for
a single-live-element group, the old snapshot's for an old-only group.
Multi-element groups (and the crashing elOld-less case) are exempt. -/
def checkDepsOf (g : GroupState) (pre : List String) : Bool :=
  match g.elements with
  | [stNew] => stNew.dependencies.all pre.contains
  | [] =>
      match g.elOld with
      | some stOld => stOld.dependencies.all pre.contains
      | none => true
  | _ => true

def checkDeps (groups : Registry) (pre : List String) (n : String) : Bool :=
  match mapGet groups n with
  | some g => checkDepsOf g pre
  | none => true

/-- A resolved-names list is dependency ordered when every name's consulted
dependency list is contained in the names resolved strictly before it. -/
def depOrderedFrom (groups : Registry) : List String → List String → Bool
  | _, [] => true
  | pre, n :: rest => checkDeps groups pre n && depOrderedFrom groups (pre ++ [n]) rest

def depOrdered (groups : Registry) (ready : List String) : Bool :=
  depOrderedFrom groups [] ready

/-- Modelled from the spec: `SharedElement.scss` is imported by the engine
but is not among the repository sources, so the stylesheet's rule for the
new clone is taken from the spec sentence that, with fade-in disabled and no
caller-specified initial opacity, the clone is by default fully transparent
(invisible); clearing the inline declaration therefore resolves to opacity
`"0"`. -/
def stylesheetNewCloneOpacity : String := "0"

/-- The opacity the new clone actually renders with: an empty inline value
removes the inline declaration and defers to the stylesheet. -/
def effectiveNewCloneOpacity (inlineValue : String) : String :=
  if inlineValue = "" then stylesheetNewCloneOpacity else inlineValue

/-- A live element as produced by `SharedElement` with the default props:
both fades enabled, dependencies as declared. -/
def mkElement (el : Nat) (deps : List String) : ElementState where
  el := el
  rect := ⟨0, 0, 100, 20⟩
  fadeOutAnimation := { enable := some true }
  fadeInAnimation := { enable := some true }
  dependencies := deps

/-- A registry holding the dependency chain of the spec's test property:
C depends on B, B depends on A, listed in reverse order so that each pass
can resolve only the next link of the chain. -/
def chainRegistry : Registry :=
  [("C", ⟨none, none, [mkElement 3 ["B"]]⟩),
   ("B", ⟨none, none, [mkElement 2 ["A"]]⟩),
   ("A", ⟨none, none, [mkElement 1 []]⟩)]

/-- A registry holding the dependency cycle of the spec's test property. -/
def cycleRegistry : Registry :=
  [("A", ⟨none, none, [mkElement 1 ["B"]]⟩),
   ("B", ⟨none, none, [mkElement 2 ["C"]]⟩),
   ("C", ⟨none, none, [mkElement 3 ["A"]]⟩)]

/-- A group in which two live elements claim the same name (the first one
even has an unmet dependency, which the multi-element branch ignores). -/
def dupGroup : GroupState :=
  ⟨none, none, [mkElement 1 ["missing"], mkElement 2 []]⟩

def dupRegistry : Registry := [("dup", dupGroup)]

/-- The event trace that leaks an empty registry entry: an element registers
under "a"; a transition's mutation callback unregisters it (the in-flight
flag suppresses the entry's deletion); the disappearance animation settles
and the transition finishes, leaving the emptied entry behind. -/
def leakTrace : List Event :=
  [.reg (.register "a" (mkElement 1 [])),
   .start [.unregister "a" 1] none,
   .settleAnim 0,
   .finishTransition]

/-- Extending the leak trace with any further transition makes the scan hit
the zero-element, no-snapshot branch of the leaked entry. -/
def crashTrace : List Event := leakTrace ++ [.start [] none]

/-- A live element that declines the fade-in without specifying an initial
opacity. -/
def fadeInDisabledElement : ElementState :=
  { mkElement 2 [] with fadeInAnimation := { enable := some false } }

/-- A group in mid-transition shape for the fade-in-disabled case: an old
snapshot is present and the single live element is `fadeInDisabledElement`. -/
def fadeInDisabledGroup : GroupState :=
  ⟨some (mkElement 1 []), some ⟨0, 0, 100, 20⟩, [fadeInDisabledElement]⟩

/-- The engine state while the very first transition is still in flight. -/
def inflightState : EngineState := runEvents [.start [] none]

/-- The deferred mutation callback used in the deferral scenario. -/
def cbY : List RegOp := [.register "y" (mkElement 2 [])]

/-- Mid-scenario state: the first transition (which registered "x") is still
in flight. -/
def deferMidState : EngineState :=
  runEvents [.start [.register "x" (mkElement 1 [])] none]

/-- The first transition's animation has settled and its completion future
has resolved, with the deferred continuation still attached. -/
def deferSettledState : EngineState :=
  runEvents [.start [.register "x" (mkElement 1 [])] none,
             .start cbY (some true),
             .settleAnim 0,
             .finishTransition]

/-- The scan only appends: the resulting ready list, animation list and
error log extend the incoming ones. -/
def ScanExtends (st st' : ScanState) : Prop :=
  (∃ t, st'.ready = st.ready ++ t) ∧ (∃ t, st'.anims = st.anims ++ t)
  ∧ (∃ t, st'.errors = st.errors ++ t)

/-- Every animation record started by the scan belongs to a name that was
pushed into the ready list. -/
def AnimsReady (st : ScanState) : Prop :=
  ∀ ga ∈ st.anims, ga.name ∈ st.ready

/-- The wave loop driven by one transition, on the registry as it stands
after snapshotting and the mutation callback. -/
def transitionLoop (tp : TransformMap) (maxD : Nat) (groups0 : Registry)
    (ops : List RegOp) : LoopResult :=
  waveLoop tp (applyRegOps true ops (saveElementsAndBoundingRects groups0))
    maxD initialScanState [] 0

/-- Freshness bookkeeping for completion futures: the current future, every
settled future and every future awaited by a registered completion handler
predate the next id to be allocated. -/
def FutureInv (s : EngineState) : Prop :=
  s.currentFuture < s.nextFuture
  ∧ (∀ f ∈ s.settled, f < s.nextFuture)
  ∧ (∀ fid ids, s.pendingCompletion = some (fid, ids) → fid < s.nextFuture)

/-- A sequence of `setTransformProperty` calls applied in order. -/
def applyTransformSets (sets : List (String × FunctionMaybe AnimationSettings))
    (m : TransformMap) : TransformMap :=
  sets.foldl (fun acc p => setTransformProperty p.1 p.2 acc) m

lemma mapGet_mapSet_same {α : Type} (m : List (String × α)) (k : String) (v : α) :
    mapGet (mapSet m k v) k = some v := by
  induction m with
  | nil => simp [mapSet, mapGet]
  | cons p rest ih =>
      obtain ⟨k', v'⟩ := p
      by_cases h : k' = k
      · subst h; simp [mapSet, mapGet]
      · simp [mapSet, mapGet, h, ih]

lemma mapGet_mapSet_other {α : Type} (m : List (String × α)) (k other : String) (v : α)
    (h : other ≠ k) : mapGet (mapSet m k v) other = mapGet m other := by
  induction m with
  | nil => simp [mapSet, mapGet, Ne.symm h]
  | cons p rest ih =>
      obtain ⟨k', v'⟩ := p
      by_cases hk : k' = k
      · subst hk
        simp [mapSet, mapGet, Ne.symm h]
      · by_cases ho : k' = other
        · subst ho; simp [mapSet, mapGet, hk]
        · simp [mapSet, mapGet, hk, ho, ih]

lemma applyTransformSets_not_mem (sets : List (String × FunctionMaybe AnimationSettings))
    (m : TransformMap) (name : String) (h : name ∉ sets.map Prod.fst) :
    mapGet (applyTransformSets sets m) name = mapGet m name := by
  induction sets generalizing m with
  | nil => simp [applyTransformSets]
  | cons p rest ih =>
      simp only [List.map_cons, List.mem_cons, not_or] at h
      have step1 : applyTransformSets (p :: rest) m
          = applyTransformSets rest (setTransformProperty p.1 p.2 m) := rfl
      rw [step1, ih _ h.2, setTransformProperty, mapGet_mapSet_other _ _ _ _ h.1]

/-- C10: per-group transform override round-trip: after
`setTransformProperty(name, s)` — a function-valued `s` being resolved at
set time — `getTransformProperty(name)` returns exactly the stored settings;
a name that was never set (through any sequence of sets of other names,
starting from the empty override map) reads back as `undefined`; and setting
one name leaves every other name's override unchanged. -/
theorem transformProperty_roundtrip (m : TransformMap) (name other : String)
    (s : FunctionMaybe AnimationSettings)
    (sets : List (String × FunctionMaybe AnimationSettings))
    (hother : other ≠ name) (hnever : name ∉ sets.map Prod.fst) :
    getTransformProperty name (setTransformProperty name s m)
        = some (resolveFunctionMaybe s)
    ∧ getTransformProperty other (setTransformProperty name s m)
        = getTransformProperty other m
    ∧ getTransformProperty name (applyTransformSets sets []) = none := by
  refine ⟨mapGet_mapSet_same m name _, mapGet_mapSet_other m name other _ hother, ?_⟩
  rw [getTransformProperty, applyTransformSets_not_mem sets [] name hnever]
  rfl

theorem transformProperty_roundtrip_witness :
    ("bar" ≠ "hero" ∧ "hero" ∉ ([("x", FunctionMaybe.val ({} : AnimationSettings))].map Prod.fst))
    ∧ (getTransformProperty "hero"
          (setTransformProperty "hero" (.val { duration := some 300 }) [])
        = some (resolveFunctionMaybe (.val { duration := some 300 }))
      ∧ getTransformProperty "bar"
          (setTransformProperty "hero" (.val { duration := some 300 }) [])
        = getTransformProperty "bar" []
      ∧ getTransformProperty "hero"
          (applyTransformSets [("x", FunctionMaybe.val {})] []) = none) :=
  ⟨⟨by decide, by simp⟩,
    transformProperty_roundtrip [] "hero" "bar" (.val { duration := some 300 })
      [("x", FunctionMaybe.val {})] (by decide) (by simp)⟩

/-- C9: in the two-sided animator (one live element with an old snapshot
present), when fade-in is disabled the new clone receives no fade animation
and is statically set to the caller-specified initial opacity; when no
initial opacity is specified the inline declaration is cleared and the
clone's effective opacity is the stylesheet default, fully transparent. -/
theorem fadeInDisabled_staticOpacity (tp : TransformMap) (name : String)
    (g : GroupState) (stNew stOld : ElementState)
    (_hOld : g.elOld = some stOld)
    (hDisabled : stNew.fadeInAnimation.enable = some false) :
    (buildPairedAnim tp name g stNew).fadeInAnim = none
    ∧ (buildPairedAnim tp name g stNew).newInlineOpacity
        = some (stNew.fadeInAnimation.initialOpacity.getD "")
    ∧ (stNew.fadeInAnimation.initialOpacity = none →
        effectiveNewCloneOpacity
          ((buildPairedAnim tp name g stNew).newInlineOpacity.getD "") = "0") := by
  refine ⟨?_, ?_, ?_⟩
  · simp [buildPairedAnim, hDisabled]
  · simp [buildPairedAnim, hDisabled]
  · intro hNone
    simp [buildPairedAnim, hDisabled, hNone, effectiveNewCloneOpacity,
      stylesheetNewCloneOpacity]

theorem fadeInDisabled_staticOpacity_witness :
    (fadeInDisabledGroup.elOld = some (mkElement 1 [])
      ∧ fadeInDisabledElement.fadeInAnimation.enable = some false)
    ∧ ((buildPairedAnim [] "hero" fadeInDisabledGroup fadeInDisabledElement).fadeInAnim = none
      ∧ (buildPairedAnim [] "hero" fadeInDisabledGroup fadeInDisabledElement).newInlineOpacity
          = some (fadeInDisabledElement.fadeInAnimation.initialOpacity.getD "")
      ∧ (fadeInDisabledElement.fadeInAnimation.initialOpacity = none →
          effectiveNewCloneOpacity
            ((buildPairedAnim [] "hero" fadeInDisabledGroup
                fadeInDisabledElement).newInlineOpacity.getD "") = "0")) :=
  ⟨⟨by decide, by decide⟩,
    fadeInDisabled_staticOpacity [] "hero" fadeInDisabledGroup fadeInDisabledElement
      (mkElement 1 []) (by decide) (by decide)⟩

/-- C2 (code bug): the garbage-collection invariant fails.  After an element
registers under "a" and a transition's mutation callback unregisters it, the
in-flight flag makes `cleanupAction` keep the entry; when the transition
finishes, nothing revisits the entry, so a state is reached in which no
transition is in flight yet the registry holds an entry with an empty
live-element list (and no snapshot, since teardown cleared it). -/
theorem emptyGroupEntry_survives_transition :
    (runEvents leakTrace).isTransitioning = false
    ∧ (runEvents leakTrace).crashed = false
    ∧ mapGet (runEvents leakTrace).groups "a"
        = some { elOld := none, rectOld := none, elements := [] } := by
  decide

/-- C1 (code bug): a group with zero live elements and no old snapshot is
not treated as absent from the scan: the zero-element branch dereferences
the absent snapshot (`group.elOld!.dependencies`) and the scan fails.  The
first conjunct exhibits the failing branch itself; the second shows such a
group is reached by real event traces: after the leak trace, the next
transition's scan throws and the engine crashes. -/
theorem scan_crashes_on_empty_group :
    scanGroup [] { ready := [], anims := [], errors := [], allReady := true } "a"
        { elOld := none, rectOld := none, elements := [] }
      = ScanOut.crash { ready := [], anims := [], errors := [], allReady := true }
    ∧ (runEvents crashTrace).crashed = true := by
  decide

/-- C7: calling `startTransitionSE` while a transition is in flight with
deferral requested neither by the explicit argument nor by the process
default logs a non-fatal policy error unless silent-failure mode is enabled,
and drops the request: the mutation callback is never invoked and the
registry and transition state are unchanged. -/
theorem inflight_noDefer_drops (s : EngineState) (cb : List RegOp)
    (allowDeferArg : Option Bool)
    (h1 : s.crashed = false) (h2 : s.isTransitioning = true)
    (h3 : allowDeferArg.getD s.allowDefer = false) :
    step s (.start cb allowDeferArg)
      = (if s.silentlyFail then s
         else { s with errors := s.errors ++ [TransitionError.previousNotFinished] })
    ∧ (step s (.start cb allowDeferArg)).mutationRuns = s.mutationRuns
    ∧ (step s (.start cb allowDeferArg)).groups = s.groups
    ∧ (step s (.start cb allowDeferArg)).isTransitioning = s.isTransitioning
    ∧ (step s (.start cb allowDeferArg)).currentFuture = s.currentFuture
    ∧ (step s (.start cb allowDeferArg)).pendingCompletion = s.pendingCompletion
    ∧ (step s (.start cb allowDeferArg)).deferred = s.deferred := by
  have hstep : step s (.start cb allowDeferArg)
      = (if s.silentlyFail then s
         else { s with errors := s.errors ++ [TransitionError.previousNotFinished] }) := by
    simp only [step, startTransitionSE, h1, h2, h3]
    cases hsf : s.silentlyFail <;> simp [hsf]
  refine ⟨hstep, ?_, ?_, ?_, ?_, ?_, ?_⟩ <;>
    · rw [hstep]
      cases hsf : s.silentlyFail <;> simp

theorem inflight_noDefer_drops_witness :
    (inflightState.crashed = false ∧ inflightState.isTransitioning = true
      ∧ (some false).getD inflightState.allowDefer = false)
    ∧ (step inflightState (.start [.register "x" (mkElement 9 [])] (some false))
        = (if inflightState.silentlyFail then inflightState
           else { inflightState with
                    errors := inflightState.errors
                      ++ [TransitionError.previousNotFinished] })
      ∧ (step inflightState
          (.start [.register "x" (mkElement 9 [])] (some false))).mutationRuns
          = inflightState.mutationRuns
      ∧ (step inflightState
          (.start [.register "x" (mkElement 9 [])] (some false))).groups
          = inflightState.groups
      ∧ (step inflightState
          (.start [.register "x" (mkElement 9 [])] (some false))).isTransitioning
          = inflightState.isTransitioning
      ∧ (step inflightState
          (.start [.register "x" (mkElement 9 [])] (some false))).currentFuture
          = inflightState.currentFuture
      ∧ (step inflightState
          (.start [.register "x" (mkElement 9 [])] (some false))).pendingCompletion
          = inflightState.pendingCompletion
      ∧ (step inflightState
          (.start [.register "x" (mkElement 9 [])] (some false))).deferred
          = inflightState.deferred) :=
  ⟨⟨by decide, by decide, by decide⟩,
    inflight_noDefer_drops inflightState [.register "x" (mkElement 9 [])] (some false)
      (by decide) (by decide) (by decide)⟩

/-- C8: calling `startTransitionSE` while a transition is in flight with
deferral allowed attaches exactly one continuation carrying the callback to
the completion future current at the call, and changes nothing else; the
continuation can fire only once that future has settled, and firing it
consumes the attachment and invokes the callback exactly once, as a fresh
transition through `performTransition`. -/
theorem inflight_defer_runsOnce (s : EngineState) (cb : List RegOp)
    (allowDeferArg : Option Bool) (fid : Nat) :
    (s.crashed = false → s.isTransitioning = true →
      allowDeferArg.getD s.allowDefer = true →
      step s (.start cb allowDeferArg)
        = { s with deferred := s.deferred ++ [(s.currentFuture, cb)] })
    ∧ (s.crashed = false → (fid, cb) ∈ s.deferred → fid ∈ s.settled →
      step s (.runDeferred fid cb)
        = performTransition cb { s with deferred := removeFirst (fid, cb) s.deferred }
      ∧ (step s (.runDeferred fid cb)).mutationRuns = s.mutationRuns ++ [cb])
    ∧ (s.crashed = false → ¬((fid, cb) ∈ s.deferred ∧ fid ∈ s.settled) →
      step s (.runDeferred fid cb) = s) := by
  refine ⟨fun h1 h2 h3 => ?_, fun h1 h2 h3 => ?_, fun h1 h2 => ?_⟩
  · simp [step, startTransitionSE, h1, h2, h3]
  · have hstep : step s (.runDeferred fid cb)
        = performTransition cb { s with deferred := removeFirst (fid, cb) s.deferred } := by
      simp [step, h1, h2, h3]
    refine ⟨hstep, ?_⟩
    rw [hstep]
    unfold performTransition
    cases hcr : (runTransitionPure s.transformProperties s.silentlyFail
        s.maxDependencyDepth s.groups cb).crashed <;> simp [hcr]
  · simp [step, h1, h2]

theorem inflight_defer_runsOnce_witness :
    (step deferMidState (.start cbY (some true))
      = { deferMidState with
            deferred := deferMidState.deferred ++ [(deferMidState.currentFuture, cbY)] })
    ∧ (step deferSettledState (.runDeferred 1 cbY)
        = performTransition cbY
            { deferSettledState with
                deferred := removeFirst (1, cbY) deferSettledState.deferred }
      ∧ (step deferSettledState (.runDeferred 1 cbY)).mutationRuns
          = deferSettledState.mutationRuns ++ [cbY]) :=
  ⟨(inflight_defer_runsOnce deferMidState cbY (some true) 1).1
      (by decide) (by decide) (by decide),
    (inflight_defer_runsOnce deferSettledState cbY none 1).2.1
      (by decide) (by decide) (by decide)⟩

lemma scanGroup_crash_eq (tp : TransformMap) (st : ScanState) (n : String)
    (g : GroupState) (st' : ScanState)
    (h : scanGroup tp st n g = .crash st') : st' = st := by
  unfold scanGroup at h
  by_cases hmem : n ∈ st.ready
  · simp [hmem] at h
  · rcases hel : g.elements with _ | ⟨a, _ | ⟨b, rest⟩⟩ <;> rw [hel] at h
    · rcases ho : g.elOld with _ | stOld <;> rw [ho] at h
      · simp [hmem] at h
        exact h.symm
      · simp [hmem] at h
        by_cases hd : ∀ x ∈ stOld.dependencies, x ∈ st.ready
        · rw [if_pos hd] at h; simp at h
        · rw [if_neg hd] at h; simp at h
    · simp [hmem] at h
      by_cases hd : ∀ x ∈ a.dependencies, x ∈ st.ready
      · rw [if_pos hd] at h; simp at h
      · rw [if_neg hd] at h; simp at h
    · simp [hmem] at h

lemma scanGroup_ok_cases (tp : TransformMap) (st : ScanState) (n : String)
    (g : GroupState) (st' : ScanState)
    (h : scanGroup tp st n g = .ok st') :
    st' = st
    ∨ st' = { st with allReady := false }
    ∨ (∃ a b rest, g.elements = a :: b :: rest
        ∧ st' = { st with
            errors := st.errors ++ [.multipleElements n (rest.length + 2)],
            ready := st.ready ++ [n] })
    ∨ (∃ stNew, g.elements = [stNew]
        ∧ (∀ x ∈ stNew.dependencies, x ∈ st.ready)
        ∧ st' = { st with
            anims := st.anims ++ [buildPairedAnim tp n g stNew],
            ready := st.ready ++ [n] })
    ∨ (∃ stOld, g.elements = [] ∧ g.elOld = some stOld
        ∧ (∀ x ∈ stOld.dependencies, x ∈ st.ready)
        ∧ st' = { st with
            anims := st.anims ++ [buildOutAnim n stOld],
            ready := st.ready ++ [n] }) := by
  unfold scanGroup at h
  by_cases hmem : n ∈ st.ready
  · simp [hmem] at h
    exact Or.inl h.symm
  · rcases hel : g.elements with _ | ⟨a, _ | ⟨b, rest⟩⟩ <;> rw [hel] at h
    · rcases ho : g.elOld with _ | stOld <;> rw [ho] at h
      · simp [hmem] at h
      · simp [hmem] at h
        by_cases hd : ∀ x ∈ stOld.dependencies, x ∈ st.ready
        · rw [if_pos hd] at h; simp at h
          exact Or.inr (Or.inr (Or.inr (Or.inr ⟨stOld, rfl, rfl, hd, h.symm⟩)))
        · rw [if_neg hd] at h; simp at h
          exact Or.inr (Or.inl h.symm)
    · simp [hmem] at h
      by_cases hd : ∀ x ∈ a.dependencies, x ∈ st.ready
      · rw [if_pos hd] at h; simp at h
        exact Or.inr (Or.inr (Or.inr (Or.inl ⟨a, rfl, hd, h.symm⟩)))
      · rw [if_neg hd] at h; simp at h
        exact Or.inr (Or.inl h.symm)
    · simp [hmem] at h
      exact Or.inr (Or.inr (Or.inl ⟨a, b, rest, rfl, h.symm⟩))

lemma scanGroup_ok_ready_extend (tp : TransformMap) (st : ScanState) (n : String)
    (g : GroupState) (st' : ScanState)
    (h : scanGroup tp st n g = .ok st') :
    st'.ready = st.ready ∨ st'.ready = st.ready ++ [n] := by
  rcases scanGroup_ok_cases tp st n g st' h with
    h1 | h1 | ⟨a, b, rest, _, h1⟩ | ⟨stNew, _, _, h1⟩ | ⟨stOld, _, _, _, h1⟩ <;>
    subst h1 <;> simp

lemma scanGroups_ready_extend (tp : TransformMap) (l : List (String × GroupState)) :
    ∀ st : ScanState, ∃ tail, ((scanGroups tp st l).state).ready = st.ready ++ tail := by
  induction l with
  | nil => intro st; exact ⟨[], by simp [scanGroups, ScanOut.state]⟩
  | cons p rest ih =>
      intro st
      obtain ⟨n, g⟩ := p
      rcases hsc : scanGroup tp st n g with st1 | st1
      · rcases scanGroup_ok_ready_extend tp st n g st1 hsc with h1 | h1
        · obtain ⟨tail, ht⟩ := ih st1
          exact ⟨tail, by simp [scanGroups, hsc, ht, h1]⟩
        · obtain ⟨tail, ht⟩ := ih st1
          exact ⟨[n] ++ tail, by simp [scanGroups, hsc, ht, h1]⟩
      · have := scanGroup_crash_eq tp st n g st1 hsc
        subst this
        exact ⟨[], by simp [scanGroups, hsc, ScanOut.state]⟩

/-- Unfolding equation for the successor case of the wave loop, phrased via
`scanGroups` so that case analyses on the scan's outcome rewrite cleanly. -/
lemma waveLoop_succ (tp : TransformMap) (groups : Registry) (gas : Nat)
    (st : ScanState) (waves : List (List String)) (passes : Nat) :
    waveLoop tp groups (gas + 1) st waves passes =
      match scanGroups tp { st with allReady := true } groups with
      | .crash st' => ⟨st', waves, passes + 1, false, true⟩
      | .ok st' =>
          if st'.allReady then
            ⟨st', waves ++ [st'.ready.drop st.ready.length], passes + 1, false, false⟩
          else waveLoop tp groups gas st' (waves ++ [st'.ready.drop st.ready.length])
            (passes + 1) := rfl

lemma waveLoop_ready_extend (tp : TransformMap) (groups : Registry) :
    ∀ (gas : Nat) (st : ScanState) (waves : List (List String)) (passes : Nat),
      ∃ tail, (waveLoop tp groups gas st waves passes).final.ready = st.ready ++ tail := by
  intro gas
  induction gas with
  | zero => intro st waves passes; exact ⟨[], by simp [waveLoop]⟩
  | succ gas ih =>
      intro st waves passes
      rcases hsc : scanGroups tp { st with allReady := true } groups with st1 | st1
      all_goals
        have hext : ∃ tail, st1.ready = st.ready ++ tail := by
          have := scanGroups_ready_extend tp groups { st with allReady := true }
          rw [hsc] at this
          simpa [ScanOut.state] using this
      · obtain ⟨tail, ht⟩ := hext
        rw [waveLoop_succ, hsc]
        by_cases hr : st1.allReady
        · exact ⟨st1.ready.drop st.ready.length, by simp [hr, ht]⟩
        · obtain ⟨tail2, ht2⟩ :=
            ih st1 (waves ++ [st1.ready.drop st.ready.length]) (passes + 1)
          refine ⟨tail ++ tail2, ?_⟩
          simp only [hr, if_neg, Bool.false_eq_true, not_false_eq_true]
          rw [ht2, ht, List.append_assoc]
      · obtain ⟨tail, ht⟩ := hext
        rw [waveLoop_succ, hsc]
        exact ⟨tail, ht⟩

lemma ScanExtends.refl (st : ScanState) : ScanExtends st st :=
  ⟨⟨[], by simp⟩, ⟨[], by simp⟩, ⟨[], by simp⟩⟩

lemma ScanExtends.trans {a b c : ScanState} (h1 : ScanExtends a b)
    (h2 : ScanExtends b c) : ScanExtends a c := by
  obtain ⟨⟨t1, ht1⟩, ⟨t2, ht2⟩, ⟨t3, ht3⟩⟩ := h1
  obtain ⟨⟨u1, hu1⟩, ⟨u2, hu2⟩, ⟨u3, hu3⟩⟩ := h2
  exact ⟨⟨t1 ++ u1, by rw [hu1, ht1, List.append_assoc]⟩,
    ⟨t2 ++ u2, by rw [hu2, ht2, List.append_assoc]⟩,
    ⟨t3 ++ u3, by rw [hu3, ht3, List.append_assoc]⟩⟩

lemma scanGroup_ok_extends (tp : TransformMap) (st : ScanState) (n : String)
    (g : GroupState) (st' : ScanState)
    (h : scanGroup tp st n g = .ok st') : ScanExtends st st' := by
  rcases scanGroup_ok_cases tp st n g st' h with
    h1 | h1 | ⟨a, b, rest, _, h1⟩ | ⟨stNew, _, _, h1⟩ | ⟨stOld, _, _, _, h1⟩ <;>
    subst h1 <;>
    refine ⟨?_, ?_, ?_⟩ <;>
    first
      | exact ⟨_, rfl⟩
      | exact ⟨[], by simp⟩

lemma scanGroups_extends (tp : TransformMap) (l : List (String × GroupState)) :
    ∀ st : ScanState, ScanExtends st ((scanGroups tp st l).state) := by
  induction l with
  | nil => intro st; exact ScanExtends.refl st
  | cons p rest ih =>
      intro st
      obtain ⟨n, g⟩ := p
      rcases hsc : scanGroup tp st n g with st1 | st1
      · have h1 := scanGroup_ok_extends tp st n g st1 hsc
        have h2 := ih st1
        have : scanGroups tp st ((n, g) :: rest) = scanGroups tp st1 rest := by
          simp [scanGroups, hsc]
        rw [this]
        exact h1.trans h2
      · have := scanGroup_crash_eq tp st n g st1 hsc
        subst this
        have : scanGroups tp st1 ((n, g) :: rest) = .crash st1 := by
          simp [scanGroups, hsc]
        rw [this]
        exact ScanExtends.refl st1

lemma waveLoop_extends (tp : TransformMap) (groups : Registry) :
    ∀ (gas : Nat) (st : ScanState) (waves : List (List String)) (passes : Nat),
      ScanExtends st (waveLoop tp groups gas st waves passes).final := by
  intro gas
  induction gas with
  | zero => intro st waves passes; exact ScanExtends.refl st
  | succ gas ih =>
      intro st waves passes
      have hpass := scanGroups_extends tp groups { st with allReady := true }
      have hbase : ScanExtends st { st with allReady := true } := ScanExtends.refl st
      rcases hsc : scanGroups tp { st with allReady := true } groups with st1 | st1 <;>
        rw [hsc] at hpass <;> simp only [ScanOut.state] at hpass
      · rw [waveLoop_succ, hsc]
        by_cases hr : st1.allReady
        · simpa [hr] using hbase.trans hpass
        · simp only [hr, Bool.false_eq_true, if_neg, not_false_eq_true]
          exact (hbase.trans hpass).trans
            (ih st1 (waves ++ [st1.ready.drop st.ready.length]) (passes + 1))
      · rw [waveLoop_succ, hsc]
        exact hbase.trans hpass

lemma scanGroup_ok_animsReady (tp : TransformMap) (st : ScanState) (n : String)
    (g : GroupState) (st' : ScanState)
    (h : scanGroup tp st n g = .ok st') (hinv : AnimsReady st) : AnimsReady st' := by
  rcases scanGroup_ok_cases tp st n g st' h with
    h1 | h1 | ⟨a, b, rest, _, h1⟩ | ⟨stNew, _, _, h1⟩ | ⟨stOld, _, _, _, h1⟩ <;>
    subst h1 <;> intro ga hga <;> simp only [AnimsReady] at hinv
  · exact hinv ga hga
  · exact hinv ga hga
  · exact List.mem_append_left _ (hinv ga hga)
  · simp only [List.mem_append, List.mem_singleton] at hga
    rcases hga with hga | hga
    · exact List.mem_append_left _ (hinv ga hga)
    · subst hga
      simp [buildPairedAnim]
  · simp only [List.mem_append, List.mem_singleton] at hga
    rcases hga with hga | hga
    · exact List.mem_append_left _ (hinv ga hga)
    · subst hga
      simp [buildOutAnim]

lemma scanGroups_animsReady (tp : TransformMap) (l : List (String × GroupState)) :
    ∀ st : ScanState, AnimsReady st → AnimsReady ((scanGroups tp st l).state) := by
  induction l with
  | nil => intro st h; exact h
  | cons p rest ih =>
      intro st h
      obtain ⟨n, g⟩ := p
      rcases hsc : scanGroup tp st n g with st1 | st1
      · have heq : scanGroups tp st ((n, g) :: rest) = scanGroups tp st1 rest := by
          simp [scanGroups, hsc]
        rw [heq]
        exact ih st1 (scanGroup_ok_animsReady tp st n g st1 hsc h)
      · have := scanGroup_crash_eq tp st n g st1 hsc
        subst this
        have heq : scanGroups tp st1 ((n, g) :: rest) = .crash st1 := by
          simp [scanGroups, hsc]
        rw [heq]
        exact h

lemma waveLoop_animsReady (tp : TransformMap) (groups : Registry) :
    ∀ (gas : Nat) (st : ScanState) (waves : List (List String)) (passes : Nat),
      AnimsReady st → AnimsReady (waveLoop tp groups gas st waves passes).final := by
  intro gas
  induction gas with
  | zero => intro st waves passes h; exact h
  | succ gas ih =>
      intro st waves passes h
      have hpass := scanGroups_animsReady tp groups { st with allReady := true } h
      rcases hsc : scanGroups tp { st with allReady := true } groups with st1 | st1 <;>
        rw [hsc] at hpass <;> simp only [ScanOut.state] at hpass
      · rw [waveLoop_succ, hsc]
        by_cases hr : st1.allReady
        · simpa [hr] using hpass
        · simp only [hr, Bool.false_eq_true, if_neg, not_false_eq_true]
          exact ih st1 (waves ++ [st1.ready.drop st.ready.length]) (passes + 1) hpass
      · rw [waveLoop_succ, hsc]
        exact hpass

/-- Generic preservation of a scan-state invariant through one full scan,
remembering that every processed entry comes from the given registry. -/
lemma scanGroups_preserve (tp : TransformMap) (registry : Registry)
    (P : ScanState → Prop)
    (hstep : ∀ (st : ScanState) (n : String) (g : GroupState) (st' : ScanState),
      (n, g) ∈ registry → scanGroup tp st n g = .ok st' → P st → P st') :
    ∀ (l : List (String × GroupState)), (∀ e ∈ l, e ∈ registry) →
      ∀ st : ScanState, P st → P ((scanGroups tp st l).state) := by
  intro l
  induction l with
  | nil => intro _ st h; exact h
  | cons p rest ih =>
      intro hsub st h
      obtain ⟨n, g⟩ := p
      rcases hsc : scanGroup tp st n g with st1 | st1
      · have heq : scanGroups tp st ((n, g) :: rest) = scanGroups tp st1 rest := by
          simp [scanGroups, hsc]
        rw [heq]
        exact ih (fun e he => hsub e (List.mem_cons_of_mem _ he)) st1
          (hstep st n g st1 (hsub (n, g) (List.mem_cons_self _ _)) hsc h)
      · have := scanGroup_crash_eq tp st n g st1 hsc
        subst this
        have heq : scanGroups tp st1 ((n, g) :: rest) = .crash st1 := by
          simp [scanGroups, hsc]
        rw [heq]
        exact h

/-- Generic preservation of a scan-state invariant through the whole wave
loop, for invariants insensitive to the `allReady` flag. -/
lemma waveLoop_preserve (tp : TransformMap) (groups : Registry)
    (P : ScanState → Prop)
    (hall : ∀ st : ScanState, P st → P { st with allReady := true })
    (hstep : ∀ (st : ScanState) (n : String) (g : GroupState) (st' : ScanState),
      (n, g) ∈ groups → scanGroup tp st n g = .ok st' → P st → P st') :
    ∀ (gas : Nat) (st : ScanState) (waves : List (List String)) (passes : Nat),
      P st → P (waveLoop tp groups gas st waves passes).final := by
  intro gas
  induction gas with
  | zero => intro st waves passes h; exact h
  | succ gas ih =>
      intro st waves passes h
      have hpass := scanGroups_preserve tp groups P hstep groups (fun e he => he)
        { st with allReady := true } (hall st h)
      rcases hsc : scanGroups tp { st with allReady := true } groups with st1 | st1 <;>
        rw [hsc] at hpass <;> simp only [ScanOut.state] at hpass
      · rw [waveLoop_succ, hsc]
        by_cases hr : st1.allReady
        · simpa [hr] using hpass
        · simp only [hr, Bool.false_eq_true, if_neg, not_false_eq_true]
          exact ih st1 (waves ++ [st1.ready.drop st.ready.length]) (passes + 1) hpass
      · rw [waveLoop_succ, hsc]
        exact hpass

/-- The scan itself reports only topology (multiple-element) violations. -/
lemma waveLoop_errors_shape (tp : TransformMap) (groups : Registry)
    (gas : Nat) (st : ScanState) (waves : List (List String)) (passes : Nat)
    (hinit : ∀ x ∈ st.errors, ∃ m c, x = TransitionError.multipleElements m c) :
    ∀ x ∈ (waveLoop tp groups gas st waves passes).final.errors,
      ∃ m c, x = TransitionError.multipleElements m c := by
  refine waveLoop_preserve tp groups
    (fun s => ∀ x ∈ s.errors, ∃ m c, x = TransitionError.multipleElements m c)
    (fun s h => h) ?_ gas st waves passes hinit
  intro s n g s' _ hok h
  rcases scanGroup_ok_cases tp s n g s' hok with
    h1 | h1 | ⟨a, b, rest, _, h1⟩ | ⟨stNew, _, _, h1⟩ | ⟨stOld, _, _, _, h1⟩ <;>
    subst h1 <;> intro x hx <;> try exact h x hx
  simp only [List.mem_append, List.mem_singleton] at hx
  rcases hx with hx | hx
  · exact h x hx
  · exact ⟨n, rest.length + 2, hx⟩

/-- Provenance of animation records: each belongs to a registry entry that
held at most one live element when it was scanned. -/
lemma waveLoop_anims_src (tp : TransformMap) (groups : Registry)
    (gas : Nat) (st : ScanState) (waves : List (List String)) (passes : Nat)
    (hinit : st.anims = []) :
    ∀ ga ∈ (waveLoop tp groups gas st waves passes).final.anims,
      ∃ g', (ga.name, g') ∈ groups ∧ g'.elements.length ≤ 1 := by
  refine waveLoop_preserve tp groups
    (fun s => ∀ ga ∈ s.anims, ∃ g', (ga.name, g') ∈ groups ∧ g'.elements.length ≤ 1)
    (fun s h => h) ?_ gas st waves passes (by simp [hinit])
  intro s n g s' hmem hok h
  rcases scanGroup_ok_cases tp s n g s' hok with
    h1 | h1 | ⟨a, b, rest, _, h1⟩ | ⟨stNew, hel, _, h1⟩ | ⟨stOld, hel, _, _, h1⟩ <;>
    subst h1 <;> intro ga hga <;> try exact h ga hga
  · simp only [List.mem_append, List.mem_singleton] at hga
    rcases hga with hga | hga
    · exact h ga hga
    · subst hga
      exact ⟨g, by simpa [buildPairedAnim] using hmem, by simp [hel]⟩
  · simp only [List.mem_append, List.mem_singleton] at hga
    rcases hga with hga | hga
    · exact h ga hga
    · subst hga
      exact ⟨g, by simpa [buildOutAnim] using hmem, by simp [hel]⟩

lemma waveLoop_passes (tp : TransformMap) (groups : Registry) :
    ∀ (gas : Nat) (st : ScanState) (waves : List (List String)) (passes : Nat),
      (waveLoop tp groups gas st waves passes).passes ≤ passes + gas := by
  intro gas
  induction gas with
  | zero => intro st waves passes; simp [waveLoop]
  | succ gas ih =>
      intro st waves passes
      rw [waveLoop_succ]
      rcases hsc : scanGroups tp { st with allReady := true } groups with st1 | st1
      · by_cases hr : st1.allReady
        · simp only [hr, if_pos]
          omega
        · simp only [hr, Bool.false_eq_true, if_neg, not_false_eq_true]
          have := ih st1 (waves ++ [st1.ready.drop st.ready.length]) (passes + 1)
          omega
      · simp only
        omega

lemma runTransitionPure_proj (tp : TransformMap) (silent : Bool) (maxD : Nat)
    (groups0 : Registry) (ops : List RegOp) :
    (runTransitionPure tp silent maxD groups0 ops).anims
        = (transitionLoop tp maxD groups0 ops).final.anims
    ∧ (runTransitionPure tp silent maxD groups0 ops).ready
        = (transitionLoop tp maxD groups0 ops).final.ready
    ∧ (runTransitionPure tp silent maxD groups0 ops).aborted
        = (transitionLoop tp maxD groups0 ops).aborted
    ∧ (runTransitionPure tp silent maxD groups0 ops).waves
        = (transitionLoop tp maxD groups0 ops).waves := by
  unfold runTransitionPure transitionLoop
  dsimp only
  split <;> exact ⟨rfl, rfl, rfl, rfl⟩

lemma runTransitionPure_ok_eq (tp : TransformMap) (silent : Bool) (maxD : Nat)
    (groups0 : Registry) (ops : List RegOp)
    (hc : (transitionLoop tp maxD groups0 ops).crashed = false) :
    runTransitionPure tp silent maxD groups0 ops =
      ⟨clearSavedElementsAndBoundingRects
          (applyRegOps true ops (saveElementsAndBoundingRects groups0)),
        (transitionLoop tp maxD groups0 ops).final.ready,
        (transitionLoop tp maxD groups0 ops).final.anims,
        (transitionLoop tp maxD groups0 ops).waves,
        (transitionLoop tp maxD groups0 ops).final.errors
          ++ (if (transitionLoop tp maxD groups0 ops).aborted && !silent
              then [.depthExceeded maxD] else []),
        (transitionLoop tp maxD groups0 ops).aborted, false⟩ := by
  unfold runTransitionPure
  dsimp only
  rw [show (waveLoop tp (applyRegOps true ops (saveElementsAndBoundingRects groups0))
      maxD initialScanState [] 0) = transitionLoop tp maxD groups0 ops from rfl, hc]
  simp

lemma runTransitionPure_crashed_iff (tp : TransformMap) (silent : Bool) (maxD : Nat)
    (groups0 : Registry) (ops : List RegOp) :
    (runTransitionPure tp silent maxD groups0 ops).crashed
      = (transitionLoop tp maxD groups0 ops).crashed := by
  unfold runTransitionPure
  dsimp only
  rw [show (waveLoop tp (applyRegOps true ops (saveElementsAndBoundingRects groups0))
      maxD initialScanState [] 0) = transitionLoop tp maxD groups0 ops from rfl]
  rcases hc : (transitionLoop tp maxD groups0 ops).crashed <;> simp [hc]

/-- C5: the wave-resolution loop terminates after at most the configured
maximum number of passes (the loop is the total function `waveLoop` run with
that budget); when the cap is exceeded before all groups resolve — as with a
dependency cycle — the loop aborts and the dependency-depth error is
reported exactly when silent-failure mode is off; groups left unresolved
never animate; and the configured default maximum is 100. -/
theorem depthCap_and_degradation :
    (∀ (tp : TransformMap) (groups : Registry) (maxD : Nat) (st : ScanState)
        (waves : List (List String)) (passes : Nat),
      (waveLoop tp groups maxD st waves passes).passes ≤ passes + maxD)
    ∧ (∀ (tp : TransformMap) (silent : Bool) (maxD : Nat) (groups0 : Registry)
        (ops : List RegOp),
      (runTransitionPure tp silent maxD groups0 ops).crashed = false →
      (runTransitionPure tp silent maxD groups0 ops).aborted = true →
      ((TransitionError.depthExceeded maxD
          ∈ (runTransitionPure tp silent maxD groups0 ops).errors) ↔ silent = false))
    ∧ (∀ (tp : TransformMap) (silent : Bool) (maxD : Nat) (groups0 : Registry)
        (ops : List RegOp) (ga : GroupAnim),
      ga ∈ (runTransitionPure tp silent maxD groups0 ops).anims →
      ga.name ∈ (runTransitionPure tp silent maxD groups0 ops).ready)
    ∧ initialEngineState.maxDependencyDepth = 100 := by
  refine ⟨waveLoop_passes, ?_, ?_, rfl⟩
  · intro tp silent maxD groups0 ops hcr hab
    rw [runTransitionPure_crashed_iff] at hcr
    rw [runTransitionPure_ok_eq tp silent maxD groups0 ops hcr] at hab ⊢
    simp only at hab ⊢
    rw [hab]
    cases silent
    · simp
    · have hshape := waveLoop_errors_shape tp
        (applyRegOps true ops (saveElementsAndBoundingRects groups0)) maxD
        initialScanState [] 0 (by simp [initialScanState])
      constructor
      · intro hmem
        simp only [Bool.not_true, Bool.and_false] at hmem
        rw [if_neg (by simp)] at hmem
        simp only [List.append_nil] at hmem
        obtain ⟨m, c, habs⟩ := hshape _ hmem
        simp at habs
      · intro hfalse
        simp at hfalse
  · intro tp silent maxD groups0 ops ga hga
    have hinv := waveLoop_animsReady tp
      (applyRegOps true ops (saveElementsAndBoundingRects groups0)) maxD
      initialScanState [] 0 (by simp [initialScanState, AnimsReady])
    obtain ⟨ha, hr, _, _⟩ := runTransitionPure_proj tp silent maxD groups0 ops
    rw [ha] at hga
    rw [hr]
    exact hinv ga hga

theorem depthCap_and_degradation_witness :
    ((runTransitionPure [] true 100 cycleRegistry []).crashed = false
      ∧ (runTransitionPure [] true 100 cycleRegistry []).aborted = true
      ∧ (runTransitionPure [] false 100 cycleRegistry []).crashed = false
      ∧ (runTransitionPure [] false 100 cycleRegistry []).aborted = true
      ∧ (runTransitionPure [] true 100 cycleRegistry []).anims = [])
    ∧ ((TransitionError.depthExceeded 100
          ∈ (runTransitionPure [] true 100 cycleRegistry []).errors) ↔ true = false)
    ∧ ((TransitionError.depthExceeded 100
          ∈ (runTransitionPure [] false 100 cycleRegistry []).errors) ↔ false = false) :=
  ⟨⟨by decide, by decide, by decide, by decide, by decide⟩,
    depthCap_and_degradation.2.1 [] true 100 cycleRegistry [] (by decide) (by decide),
    depthCap_and_degradation.2.1 [] false 100 cycleRegistry [] (by decide) (by decide)⟩

lemma scanGroup_multi_eq (tp : TransformMap) (st : ScanState) (n : String)
    (g : GroupState) (a b : ElementState) (rest : List ElementState)
    (hmem : n ∉ st.ready) (hel : g.elements = a :: b :: rest) :
    scanGroup tp st n g = .ok { st with
      errors := st.errors ++ [.multipleElements n (rest.length + 2)],
      ready := st.ready ++ [n] } := by
  unfold scanGroup
  rw [hel]
  simp [hmem]

lemma scanGroups_multi (tp : TransformMap) :
    ∀ (l : List (String × GroupState)) (st st' : ScanState) (n : String) (g : GroupState),
      (l.map Prod.fst).Nodup → (n, g) ∈ l → 2 ≤ g.elements.length → n ∉ st.ready →
      scanGroups tp st l = .ok st' →
      TransitionError.multipleElements n g.elements.length ∈ st'.errors
        ∧ n ∈ st'.ready := by
  intro l
  induction l with
  | nil => intro st st' n g _ hmem; simp at hmem
  | cons p rest ih =>
      intro st st' n g hnd hmem hlen hnr hok
      obtain ⟨m, gm⟩ := p
      rcases List.mem_cons.mp hmem with heq | htail
      · obtain ⟨hn, hg⟩ := Prod.mk.injEq .. ▸ heq
        subst hn
        subst hg
        rcases hel : g.elements with _ | ⟨a, _ | ⟨b, r2⟩⟩
        · rw [hel] at hlen; simp at hlen
        · rw [hel] at hlen; simp at hlen
        · have hsc := scanGroup_multi_eq tp st n g a b r2 hnr hel
          have heq2 : scanGroups tp st ((n, g) :: rest)
              = scanGroups tp { st with
                  errors := st.errors ++ [.multipleElements n (r2.length + 2)],
                  ready := st.ready ++ [n] } rest := by
            simp [scanGroups, hsc]
          rw [heq2] at hok
          have hext := scanGroups_extends tp rest { st with
            errors := st.errors ++ [.multipleElements n (r2.length + 2)],
            ready := st.ready ++ [n] }
          rw [hok] at hext
          simp only [ScanOut.state] at hext
          obtain ⟨⟨t1, ht1⟩, _, ⟨t3, ht3⟩⟩ := hext
          constructor
          · rw [ht3]
            have hlen2 : (a :: b :: r2).length = r2.length + 2 := by simp
            rw [hlen2]
            simp
          · rw [ht1]
            simp
      · rcases hsc : scanGroup tp st m gm with st1 | st1
        · have heq2 : scanGroups tp st ((m, gm) :: rest) = scanGroups tp st1 rest := by
            simp [scanGroups, hsc]
          rw [heq2] at hok
          have hmn : n ≠ m := by
            intro hnm
            subst hnm
            have : n ∈ rest.map Prod.fst := List.mem_map_of_mem Prod.fst htail
            simp only [List.map_cons, List.nodup_cons] at hnd
            exact hnd.1 this
          have hnr1 : n ∉ st1.ready := by
            rcases scanGroup_ok_ready_extend tp st m gm st1 hsc with h1 | h1 <;> rw [h1]
            · exact hnr
            · simp [hnr, hmn]
          exact ih st1 st' n g (by simpa using hnd.of_cons) htail hlen hnr1 hok
        · have heq2 : scanGroups tp st ((m, gm) :: rest) = .crash st1 := by
            simp [scanGroups, hsc]
          rw [heq2] at hok
          simp at hok

lemma waveLoop_waves_extend (tp : TransformMap) (groups : Registry) :
    ∀ (gas : Nat) (st : ScanState) (waves : List (List String)) (passes : Nat),
      ∃ t, (waveLoop tp groups gas st waves passes).waves = waves ++ t := by
  intro gas
  induction gas with
  | zero => intro st waves passes; exact ⟨[], by simp [waveLoop]⟩
  | succ gas ih =>
      intro st waves passes
      rw [waveLoop_succ]
      rcases hsc : scanGroups tp { st with allReady := true } groups with st1 | st1
      · by_cases hr : st1.allReady
        · exact ⟨[st1.ready.drop st.ready.length], by simp [hr]⟩
        · obtain ⟨t, ht⟩ := ih st1 (waves ++ [st1.ready.drop st.ready.length]) (passes + 1)
          refine ⟨[st1.ready.drop st.ready.length] ++ t, ?_⟩
          simp only [hr, Bool.false_eq_true, if_neg, not_false_eq_true]
          rw [ht, List.append_assoc]
      · exact ⟨[], by simp⟩

lemma assoc_nodup_unique {α : Type} :
    ∀ (l : List (String × α)), (l.map Prod.fst).Nodup →
      ∀ (n : String) (a b : α), (n, a) ∈ l → (n, b) ∈ l → a = b := by
  intro l
  induction l with
  | nil => intro _ n a b ha; simp at ha
  | cons p rest ih =>
      intro hnd n a b ha hb
      obtain ⟨k, v⟩ := p
      simp only [List.map_cons, List.nodup_cons] at hnd
      rcases List.mem_cons.mp ha with hha | hha <;> rcases List.mem_cons.mp hb with hhb | hhb
      · rw [Prod.mk.injEq] at hha hhb
        rw [hha.2, hhb.2]
      · exfalso
        rw [Prod.mk.injEq] at hha
        exact hnd.1 (hha.1 ▸ List.mem_map_of_mem Prod.fst hhb)
      · exfalso
        rw [Prod.mk.injEq] at hhb
        exact hnd.1 (hhb.1 ▸ List.mem_map_of_mem Prod.fst hha)
      · exact ih hnd.2 n a b hha hhb

lemma ScanExtends.mem_errors {a b : ScanState} (h : ScanExtends a b)
    {x : TransitionError} (hx : x ∈ a.errors) : x ∈ b.errors := by
  obtain ⟨_, _, ⟨t, ht⟩⟩ := h
  rw [ht]
  exact List.mem_append_left _ hx

lemma ScanExtends.mem_ready {a b : ScanState} (h : ScanExtends a b)
    {x : String} (hx : x ∈ a.ready) : x ∈ b.ready := by
  obtain ⟨⟨t, ht⟩, _, _⟩ := h
  rw [ht]
  exact List.mem_append_left _ hx

/-- C6 (amended): for every group holding more than one live element at
resolution time, the topology error is reported regardless of silent-failure
mode (the scan never consults the flag), no animation is performed for that
group, and it is marked resolved in the very first pass without waiting on
dependencies, so it never blocks resolution of groups that do not depend on
it. -/
theorem multiElement_reported_resolved (tp : TransformMap) (registry : Registry)
    (maxD : Nat) (n : String) (g : GroupState)
    (hnodup : (registry.map Prod.fst).Nodup)
    (hmem : (n, g) ∈ registry)
    (hlen : 2 ≤ g.elements.length)
    (hmax : 1 ≤ maxD)
    (hcr : (waveLoop tp registry maxD initialScanState [] 0).crashed = false) :
    TransitionError.multipleElements n g.elements.length
        ∈ (waveLoop tp registry maxD initialScanState [] 0).final.errors
    ∧ (∀ ga ∈ (waveLoop tp registry maxD initialScanState [] 0).final.anims,
        ga.name ≠ n)
    ∧ (∃ w ws, (waveLoop tp registry maxD initialScanState [] 0).waves = w :: ws
        ∧ n ∈ w) := by
  have hanims := waveLoop_anims_src tp registry maxD initialScanState [] 0 rfl
  obtain ⟨gas, rfl⟩ : ∃ gas, maxD = gas + 1 := ⟨maxD - 1, by omega⟩
  refine ⟨?_, ?_, ?_⟩
  · rcases hsc : scanGroups tp { initialScanState with allReady := true } registry
      with st1 | st1
    · have hfirst := scanGroups_multi tp registry { initialScanState with allReady := true }
        st1 n g hnodup hmem hlen (by simp [initialScanState]) hsc
      rw [waveLoop_succ, hsc]
      by_cases hr : st1.allReady
      · simpa [hr] using hfirst.1
      · simp only [hr, Bool.false_eq_true, if_neg, not_false_eq_true]
        exact (waveLoop_extends tp registry gas st1 _ 1).mem_errors hfirst.1
    · rw [waveLoop_succ, hsc] at hcr
      simp at hcr
  · intro ga hga heq
    obtain ⟨g', hg', hlen'⟩ := hanims ga hga
    rw [heq] at hg'
    have := assoc_nodup_unique registry hnodup n g' g hg' hmem
    subst this
    omega
  · rcases hsc : scanGroups tp { initialScanState with allReady := true } registry
      with st1 | st1
    · have hfirst := scanGroups_multi tp registry { initialScanState with allReady := true }
        st1 n g hnodup hmem hlen (by simp [initialScanState]) hsc
      rw [waveLoop_succ, hsc]
      by_cases hr : st1.allReady
      · refine ⟨st1.ready, [], ?_, hfirst.2⟩
        simp [hr, initialScanState]
      · obtain ⟨t, ht⟩ := waveLoop_waves_extend tp registry gas st1
          ([] ++ [st1.ready.drop initialScanState.ready.length]) 1
        refine ⟨st1.ready, t, ?_, hfirst.2⟩
        simp only [hr, Bool.false_eq_true, if_neg, not_false_eq_true]
        rw [ht]
        simp [initialScanState]
    · rw [waveLoop_succ, hsc] at hcr
      simp at hcr

/-- C6 counterexample to the claim as stated: with silent-failure mode
enabled, a group with two live elements still gets its topology error
reported by the scan (the scan does not consult the flag). -/
theorem multiElement_counterexample :
    ¬ ((runTransitionPure [] true 100 dupRegistry []).errors = [])
    ∧ (runTransitionPure [] true 100 dupRegistry []).errors
        = [TransitionError.multipleElements "dup" 2] := by
  decide

theorem multiElement_reported_resolved_witness :
    ((dupRegistry.map Prod.fst).Nodup ∧ ("dup", dupGroup) ∈ dupRegistry
      ∧ 2 ≤ dupGroup.elements.length ∧ 1 ≤ 100
      ∧ (waveLoop [] dupRegistry 100 initialScanState [] 0).crashed = false)
    ∧ (TransitionError.multipleElements "dup" dupGroup.elements.length
        ∈ (waveLoop [] dupRegistry 100 initialScanState [] 0).final.errors
      ∧ (∀ ga ∈ (waveLoop [] dupRegistry 100 initialScanState [] 0).final.anims,
          ga.name ≠ "dup")
      ∧ (∃ w ws, (waveLoop [] dupRegistry 100 initialScanState [] 0).waves = w :: ws
          ∧ "dup" ∈ w)) :=
  ⟨⟨by decide, by decide, by decide, by decide, by decide⟩,
    multiElement_reported_resolved [] dupRegistry 100 "dup" dupGroup
      (by decide) (by decide) (by decide) (by decide) (by decide)⟩

lemma mapGet_of_mem_nodup {α : Type} :
    ∀ (l : List (String × α)), (l.map Prod.fst).Nodup →
      ∀ (n : String) (v : α), (n, v) ∈ l → mapGet l n = some v := by
  intro l
  induction l with
  | nil => intro _ n v hv; simp at hv
  | cons p rest ih =>
      intro hnd n v hv
      obtain ⟨k, w⟩ := p
      simp only [List.map_cons, List.nodup_cons] at hnd
      rcases List.mem_cons.mp hv with hh | hh
      · rw [Prod.mk.injEq] at hh
        unfold mapGet
        rw [if_pos hh.1.symm, hh.2]
      · have hkn : k ≠ n := by
          intro hk
          exact hnd.1 (hk ▸ List.mem_map_of_mem Prod.fst hh)
        unfold mapGet
        rw [if_neg hkn]
        exact ih hnd.2 n v hh

lemma all_contains_of_forall (l pre : List String) (h : ∀ x ∈ l, x ∈ pre) :
    l.all pre.contains = true := by
  rw [List.all_eq_true]
  intro x hx
  simpa using h x hx

lemma depOrderedFrom_append (groups : Registry) :
    ∀ (xs : List String) (pre : List String) (n : String),
      depOrderedFrom groups pre (xs ++ [n])
        = (depOrderedFrom groups pre xs && checkDeps groups (pre ++ xs) n) := by
  intro xs
  induction xs with
  | nil => intro pre n; simp [depOrderedFrom]
  | cons x rest ih =>
      intro pre n
      have h1 : depOrderedFrom groups pre ((x :: rest) ++ [n])
          = (checkDeps groups pre x
              && depOrderedFrom groups (pre ++ [x]) (rest ++ [n])) := rfl
      have h2 : depOrderedFrom groups pre (x :: rest)
          = (checkDeps groups pre x && depOrderedFrom groups (pre ++ [x]) rest) := rfl
      rw [h1, h2, ih (pre ++ [x]) n, Bool.and_assoc, List.append_assoc]
      rfl

/-- C4: the resolved-names list produced by the wave-resolution loop is
dependency ordered — a group is animated in a pass only when every name in
its active element's dependency list (the new element's for a one-element
group, the old snapshot's for an old-only group) is already resolved — and
on the concrete chain where C depends on B and B depends on A the waves
resolve A, then B, then C. -/
theorem dependencyOrder :
    (∀ (tp : TransformMap) (registry : Registry) (maxD : Nat),
      (registry.map Prod.fst).Nodup →
      depOrdered registry
        (waveLoop tp registry maxD initialScanState [] 0).final.ready = true)
    ∧ (waveLoop [] chainRegistry 100 initialScanState [] 0).waves
        = [["A"], ["B"], ["C"]]
    ∧ (waveLoop [] chainRegistry 100 initialScanState [] 0).final.ready
        = ["A", "B", "C"] := by
  refine ⟨?_, by decide, by decide⟩
  intro tp registry maxD hnodup
  refine waveLoop_preserve tp registry
    (fun st => depOrdered registry st.ready = true) (fun st h => h) ?_
    maxD initialScanState [] 0 rfl
  intro st n g st' hmem hok h
  have hpush : ∀ hcd : checkDepsOf g st.ready = true,
      depOrdered registry (st.ready ++ [n]) = true := by
    intro hcd
    have hcd2 : checkDeps registry st.ready n = checkDepsOf g st.ready := by
      unfold checkDeps
      rw [mapGet_of_mem_nodup registry hnodup n g hmem]
    unfold depOrdered
    rw [depOrderedFrom_append registry st.ready [] n]
    unfold depOrdered at h
    rw [List.nil_append, h, hcd2, hcd]
    rfl
  rcases scanGroup_ok_cases tp st n g st' hok with
    h1 | h1 | ⟨a, b, rest, hel, h1⟩ | ⟨stNew, hel, hd, h1⟩ | ⟨stOld, hel, ho, hd, h1⟩ <;>
    subst h1
  · exact h
  · exact h
  · exact hpush (by rw [checkDepsOf, hel])
  · refine hpush ?_
    rw [checkDepsOf, hel]
    exact all_contains_of_forall _ _ hd
  · refine hpush ?_
    rw [checkDepsOf, hel, ho]
    exact all_contains_of_forall _ _ hd

theorem dependencyOrder_witness :
    (chainRegistry.map Prod.fst).Nodup
    ∧ depOrdered chainRegistry
        (waveLoop [] chainRegistry 100 initialScanState [] 0).final.ready = true :=
  ⟨by decide, dependencyOrder.1 [] chainRegistry 100 (by decide)⟩

lemma performTransition_proj (cb : List RegOp) (s : EngineState) :
    (performTransition cb s).isTransitioning = true
    ∧ (performTransition cb s).currentFuture = s.nextFuture
    ∧ (performTransition cb s).nextFuture = s.nextFuture + 1
    ∧ (performTransition cb s).settled = s.settled
    ∧ (performTransition cb s).settledAnims = s.settledAnims
    ∧ (performTransition cb s).mutationRuns = s.mutationRuns ++ [cb] := by
  unfold performTransition
  dsimp only
  split <;> exact ⟨rfl, rfl, rfl, rfl, rfl, rfl⟩

lemma performTransition_pending_ok (cb : List RegOp) (s : EngineState)
    (hok : (runTransitionPure s.transformProperties s.silentlyFail
      s.maxDependencyDepth s.groups cb).crashed = false) :
    (performTransition cb s).pendingCompletion
      = some (s.nextFuture, List.range' s.animCounter
          (runTransitionPure s.transformProperties s.silentlyFail
            s.maxDependencyDepth s.groups cb).anims.length) := by
  unfold performTransition
  dsimp only
  rw [hok]
  simp

lemma performTransition_pending_crash (cb : List RegOp) (s : EngineState)
    (hcr : (runTransitionPure s.transformProperties s.silentlyFail
      s.maxDependencyDepth s.groups cb).crashed = true) :
    (performTransition cb s).pendingCompletion = s.pendingCompletion := by
  unfold performTransition
  dsimp only
  rw [hcr]
  simp

lemma futureInv_init : FutureInv initialEngineState := by
  refine ⟨by decide, ?_, ?_⟩
  · intro f hf
    simp [initialEngineState] at hf
    simp [hf, initialEngineState]
  · intro fid ids h
    simp [initialEngineState] at h

lemma performTransition_futureInv (cb : List RegOp) (s : EngineState)
    (h : FutureInv s) : FutureInv (performTransition cb s) := by
  obtain ⟨h1, h2, h3⟩ := h
  obtain ⟨_, hcur, hnext, hset, _, _⟩ := performTransition_proj cb s
  refine ⟨?_, ?_, ?_⟩
  · rw [hcur, hnext]; omega
  · intro f hf
    rw [hset] at hf
    rw [hnext]
    exact Nat.lt_succ_of_lt (h2 f hf)
  · intro fid ids hp
    rw [hnext]
    rcases hcr : (runTransitionPure s.transformProperties s.silentlyFail
        s.maxDependencyDepth s.groups cb).crashed
    · rw [performTransition_pending_ok cb s hcr] at hp
      simp only [Option.some.injEq, Prod.mk.injEq] at hp
      omega
    · rw [performTransition_pending_crash cb s hcr] at hp
      exact Nat.lt_succ_of_lt (h3 fid ids hp)

/-- Exhaustive characterization of one engine step: either the state is
untouched, or exactly one of the six kinds of updates happened (a registry
mutation, a deferral attachment, a policy-error log, an animation promise
settling, the completion handler firing, or `performTransition` running on a
state that differs at most in its deferral queue). -/
lemma step_shape (s : EngineState) (e : Event) :
    step s e = s
    ∨ (∃ op, step s e = { s with groups := applyRegOp s.isTransitioning s.groups op })
    ∨ (∃ cb2, step s e = { s with deferred := s.deferred ++ [(s.currentFuture, cb2)] })
    ∨ step s e = { s with errors := s.errors ++ [TransitionError.previousNotFinished] }
    ∨ (∃ i, step s e = { s with settledAnims := s.settledAnims ++ [i] })
    ∨ (∃ fid ids, s.pendingCompletion = some (fid, ids)
        ∧ (∀ i ∈ ids, i ∈ s.settledAnims)
        ∧ step s e = { s with isTransitioning := false,
                              settled := s.settled ++ [fid],
                              pendingCompletion := none })
    ∨ (∃ cb2 s2, s2.currentFuture = s.currentFuture ∧ s2.nextFuture = s.nextFuture
        ∧ s2.settled = s.settled ∧ s2.settledAnims = s.settledAnims
        ∧ s2.pendingCompletion = s.pendingCompletion
        ∧ s2.isTransitioning = s.isTransitioning
        ∧ s2.transformProperties = s.transformProperties
        ∧ s2.silentlyFail = s.silentlyFail
        ∧ s2.maxDependencyDepth = s.maxDependencyDepth
        ∧ s2.groups = s.groups
        ∧ s2.animCounter = s.animCounter
        ∧ step s e = performTransition cb2 s2) := by
  cases e with
  | reg op =>
      rcases hc : s.crashed
      · exact Or.inr (Or.inl ⟨op, by simp [step, hc]⟩)
      · exact Or.inl (by simp [step, hc])
  | start cb ad =>
      rcases hc : s.crashed
      · have hstep : step s (.start cb ad) = startTransitionSE cb ad s := by
          simp [step, hc]
        rw [hstep]
        unfold startTransitionSE
        by_cases ht : s.isTransitioning
        · by_cases hd : ad.getD s.allowDefer
          · refine Or.inr (Or.inr (Or.inl ⟨cb, ?_⟩))
            simp [ht, hd, hc]
          · by_cases hsf : s.silentlyFail
            · refine Or.inl ?_
              simp [ht, hd, hsf, hc]
            · refine Or.inr (Or.inr (Or.inr (Or.inl ?_)))
              simp [ht, hd, hsf, hc]
        · refine Or.inr (Or.inr (Or.inr (Or.inr (Or.inr (Or.inr
            ⟨cb, s, rfl, rfl, rfl, rfl, rfl, rfl, rfl, rfl, rfl, rfl, ?_⟩)))))
          simp [ht]
      · exact Or.inl (by simp [step, hc])
  | settleAnim i =>
      rcases hc : s.crashed
      · by_cases hg : i < s.animCounter ∧ i ∉ s.settledAnims
        · refine Or.inr (Or.inr (Or.inr (Or.inr (Or.inl ⟨i, ?_⟩))))
          simp [step, hc, hg]
        · refine Or.inl ?_
          simp [step, hc, hg]
      · exact Or.inl (by simp [step, hc])
  | finishTransition =>
      rcases hc : s.crashed
      · rcases hp : s.pendingCompletion with _ | ⟨fid, ids⟩
        · refine Or.inl ?_
          simp [step, hc, hp]
        · have h0 : step s Event.finishTransition
              = if ∀ i ∈ ids, i ∈ s.settledAnims then
                  { s with isTransitioning := false, settled := s.settled ++ [fid],
                           pendingCompletion := none }
                else s := by
            simp [step, hc, hp]
          by_cases hg : ∀ i ∈ ids, i ∈ s.settledAnims
          · refine Or.inr (Or.inr (Or.inr (Or.inr (Or.inr (Or.inl
              ⟨fid, ids, rfl, hg, ?_⟩)))))
            rw [h0, if_pos hg]
            simp [hc]
          · refine Or.inl ?_
            rw [h0, if_neg hg]
      · exact Or.inl (by simp [step, hc])
  | runDeferred fid cb =>
      rcases hc : s.crashed
      · by_cases hg : (fid, cb) ∈ s.deferred ∧ fid ∈ s.settled
        · refine Or.inr (Or.inr (Or.inr (Or.inr (Or.inr (Or.inr
            ⟨cb, { s with deferred := removeFirst (fid, cb) s.deferred },
              rfl, rfl, rfl, rfl, rfl, rfl, rfl, rfl, rfl, rfl, ?_⟩)))))
          simp [step, hc, hg]
        · refine Or.inl ?_
          simp [step, hc, hg]
      · exact Or.inl (by simp [step, hc])

lemma step_futureInv (s : EngineState) (e : Event) (h : FutureInv s) :
    FutureInv (step s e) := by
  obtain ⟨h1, h2, h3⟩ := h
  rcases step_shape s e with
    hs | ⟨op, hs⟩ | ⟨cb2, hs⟩ | hs | ⟨i, hs⟩ | ⟨fid, ids, hp, _, hs⟩
      | ⟨cb2, s2, e1, e2, e3, e4, e5, _, _, _, _, _, _, hs⟩ <;> rw [hs]
  · exact ⟨h1, h2, h3⟩
  · exact ⟨h1, h2, h3⟩
  · exact ⟨h1, h2, h3⟩
  · exact ⟨h1, h2, h3⟩
  · exact ⟨h1, h2, h3⟩
  · refine ⟨h1, ?_, ?_⟩
    · intro f hf
      simp only [List.mem_append, List.mem_singleton] at hf
      rcases hf with hf | hf
      · exact h2 f hf
      · subst hf; exact h3 f ids hp
    · intro fid2 ids2 hp2
      simp at hp2
  · refine performTransition_futureInv cb2 s2 ⟨?_, ?_, ?_⟩
    · rw [e1, e2]; exact h1
    · intro f hf
      rw [e3] at hf
      rw [e2]
      exact h2 f hf
    · intro fid2 ids2 hp2
      rw [e5] at hp2
      rw [e2]
      exact h3 fid2 ids2 hp2

lemma reachable_futureInv (s : EngineState) (h : Reachable s) : FutureInv s := by
  induction h with
  | init => exact futureInv_init
  | next s e _ ih => exact step_futureInv s e ih

lemma step_flag_flip (s : EngineState) (e : Event)
    (h1 : s.isTransitioning = true)
    (h2 : (step s e).isTransitioning = false) :
    ∃ fid ids, s.pendingCompletion = some (fid, ids)
      ∧ (∀ i ∈ ids, i ∈ s.settledAnims)
      ∧ (step s e).settled = s.settled ++ [fid] := by
  rcases step_shape s e with
    hs | ⟨op, hs⟩ | ⟨cb2, hs⟩ | hs | ⟨i, hs⟩ | ⟨fid, ids, hp, hg, hs⟩
      | ⟨cb2, s2, _, _, _, _, _, _, _, _, _, _, _, hs⟩
  · rw [hs] at h2; simp [h1] at h2
  · rw [hs] at h2; simp [h1] at h2
  · rw [hs] at h2; simp [h1] at h2
  · rw [hs] at h2; simp [h1] at h2
  · rw [hs] at h2; simp [h1] at h2
  · exact ⟨fid, ids, hp, hg, by rw [hs]⟩
  · rw [hs, (performTransition_proj cb2 s2).1] at h2
    simp at h2

lemma step_settle_only (s : EngineState) (e : Event) (f : Nat)
    (h1 : f ∉ s.settled) (h2 : f ∈ (step s e).settled) :
    ∃ ids, s.pendingCompletion = some (f, ids) ∧ ∀ i ∈ ids, i ∈ s.settledAnims := by
  rcases step_shape s e with
    hs | ⟨op, hs⟩ | ⟨cb2, hs⟩ | hs | ⟨i, hs⟩ | ⟨fid, ids, hp, hg, hs⟩
      | ⟨cb2, s2, _, _, e3, _, _, _, _, _, _, _, _, hs⟩
  · rw [hs] at h2; exact absurd h2 h1
  · rw [hs] at h2; exact absurd h2 h1
  · rw [hs] at h2; exact absurd h2 h1
  · rw [hs] at h2; exact absurd h2 h1
  · rw [hs] at h2; exact absurd h2 h1
  · rw [hs] at h2
    simp only [List.mem_append, List.mem_singleton] at h2
    rcases h2 with h2 | h2
    · exact absurd h2 h1
    · subst h2
      exact ⟨ids, hp, hg⟩
  · rw [hs, (performTransition_proj cb2 s2).2.2.2.1, e3] at h2
    exact absurd h2 h1

/-- C3: for every transition, `performTransition` sets the in-flight flag
and replaces the completion future with a fresh (never yet settled) one; a
successful run registers one completion signal per animated group; and the
flag flips back to false — and a completion future settles — only through
the completion handler firing after every collected per-group animation
signal has settled. -/
theorem transitionLifecycle (s : EngineState) (cb : List RegOp) (e : Event)
    (f : Nat) (hs : Reachable s) :
    ((performTransition cb s).isTransitioning = true
      ∧ (performTransition cb s).currentFuture ≠ s.currentFuture
      ∧ (performTransition cb s).currentFuture ∉ s.settled
      ∧ ((runTransitionPure s.transformProperties s.silentlyFail
            s.maxDependencyDepth s.groups cb).crashed = false →
          (performTransition cb s).pendingCompletion
            = some ((performTransition cb s).currentFuture,
                List.range' s.animCounter
                  (runTransitionPure s.transformProperties s.silentlyFail
                    s.maxDependencyDepth s.groups cb).anims.length)))
    ∧ (s.isTransitioning = true → (step s e).isTransitioning = false →
        ∃ fid ids, s.pendingCompletion = some (fid, ids)
          ∧ (∀ i ∈ ids, i ∈ s.settledAnims)
          ∧ (step s e).settled = s.settled ++ [fid])
    ∧ (f ∉ s.settled → f ∈ (step s e).settled →
        ∃ ids, s.pendingCompletion = some (f, ids)
          ∧ ∀ i ∈ ids, i ∈ s.settledAnims) := by
  obtain ⟨h1, h2, _⟩ := reachable_futureInv s hs
  obtain ⟨p1, p2, _, _, _, _⟩ := performTransition_proj cb s
  refine ⟨⟨p1, ?_, ?_, ?_⟩, step_flag_flip s e, step_settle_only s e f⟩
  · rw [p2]; omega
  · rw [p2]
    intro hmem
    have := h2 _ hmem
    omega
  · intro hok
    rw [performTransition_pending_ok cb s hok, p2]

theorem transitionLifecycle_witness :
    Reachable inflightState
    ∧ (((performTransition [] inflightState).isTransitioning = true
        ∧ (performTransition [] inflightState).currentFuture
            ≠ inflightState.currentFuture
        ∧ (performTransition [] inflightState).currentFuture ∉ inflightState.settled
        ∧ ((runTransitionPure inflightState.transformProperties
              inflightState.silentlyFail inflightState.maxDependencyDepth
              inflightState.groups []).crashed = false →
            (performTransition [] inflightState).pendingCompletion
              = some ((performTransition [] inflightState).currentFuture,
                  List.range' inflightState.animCounter
                    (runTransitionPure inflightState.transformProperties
                      inflightState.silentlyFail inflightState.maxDependencyDepth
                      inflightState.groups []).anims.length)))
      ∧ (inflightState.isTransitioning = true →
          (step inflightState Event.finishTransition).isTransitioning = false →
          ∃ fid ids, inflightState.pendingCompletion = some (fid, ids)
            ∧ (∀ i ∈ ids, i ∈ inflightState.settledAnims)
            ∧ (step inflightState Event.finishTransition).settled
                = inflightState.settled ++ [fid])
      ∧ (1 ∉ inflightState.settled →
          1 ∈ (step inflightState Event.finishTransition).settled →
          ∃ ids, inflightState.pendingCompletion = some (1, ids)
            ∧ ∀ i ∈ ids, i ∈ inflightState.settledAnims)) :=
  ⟨Reachable.next initialEngineState (.start [] none) Reachable.init,
    transitionLifecycle inflightState [] Event.finishTransition 1
      (Reachable.next initialEngineState (.start [] none) Reachable.init)⟩

end HachiPlayer
